import Mathlib

/-!
Youtube-Downloader: command construction and input validation.

A shallow embedding of `src/App.cpp`.  A C++ `std::string` is modelled by a Lean
`String`: the sequence of its `char` elements, each `char` standing for the character
with the same code.  A C++ `int` is modelled by an `Int`; the code only compares
such values and prints them in decimal, so no overflow arises.
-/

/-! ## Definitions -/

namespace SecureCommandBuilder

/-- The local vector `dangerousChars` of `sanitizeInput` (App.cpp line 74). -/
def dangerousChars : List Char :=
  ['|', '&', ';', '(', ')', '$', '`', '"', '\'', '<', '>', '\n', '\r']

/-- One round of the erase-remove idiom,
`result.erase(remove(result.begin(), result.end(), c), result.end())`:
every element equal to `c` is dropped, the others keep their order. -/
def eraseRemove (result : String) (c : Char) : String :=
  ⟨result.data.filter (fun x => x != c)⟩

/-- The method `sanitizeInput` (App.cpp lines 71-81): the loop over `dangerousChars`
applies one erase-remove round per character to a copy of the input. -/
def sanitizeInput (input : String) : String :=
  dangerousChars.foldl eraseRemove input

/-- The method `escapeForShell` (App.cpp lines 84-87). -/
def escapeForShell (input : String) : String :=
  let cleaned := sanitizeInput input
  "\"" ++ cleaned ++ "\""

/-- The function `std::to_string(int)`: the decimal rendering, `-` first for a negative. -/
def to_string (n : Int) : String := toString n

/-- The method `buildDownloadCommand` (App.cpp lines 90-118). -/
def buildDownloadCommand (downloaderPath url outputDir : String) (quality : Int)
    (format : String) (audioOnly : Bool) : String :=
  let cleanUrl := sanitizeInput url
  let cleanPath := escapeForShell downloaderPath
  let cleanOutput := escapeForShell (outputDir ++ "/%(uploader)s - %(title)s.%(ext)s")
  let command := cleanPath ++ " -o " ++ cleanOutput
  let command :=
    if audioOnly then
      command ++ " -f \"bestaudio/best\" --extract-audio --audio-format mp3"
    else if quality = 0 then
      command ++ (" -f \"best[height<=2160][ext=" ++ format ++ "]/best[height<=2160]/best\"")
    else
      command ++ (" -f \"best[height<=" ++ to_string quality ++ "][ext=" ++ format
        ++ "]/best[height<=" ++ to_string quality ++ "]/best\"")
  let command := command ++ " --write-info-json --write-thumbnail --embed-subs --write-auto-sub"
  let command := command ++ (" " ++ escapeForShell cleanUrl)
  command

end SecureCommandBuilder

/-! ### Regular expressions

`isValidURL` hands five patterns to `std::regex` (ECMAScript grammar, default flags)
and asks `std::regex_match` whether the whole input matches.  The patterns use only
the constructs below. -/

/-- The fragment of the ECMAScript pattern grammar that the patterns of `isValidURL` use. -/
inductive Regex where
  /-- the empty pattern -/
  | eps
  /-- the assertion `^`: the current position is the start of the input -/
  | bol
  /-- an ordinary character, or an escaped one such as `\.` or `\?` -/
  | chr (c : Char)
  /-- a bracket expression `[...]` given by its ranges and its single characters -/
  | bracket (ranges : List (Char × Char)) (singles : List Char)
  /-- concatenation -/
  | seq (a b : Regex)
  /-- the quantifier `a?` -/
  | opt (a : Regex)
  /-- the quantifier `a{n}` -/
  | rep (n : Nat) (a : Regex)
  /-- the quantifier `a+` -/
  | plus (a : Regex)

namespace Regex

/-- Membership of a character in a bracket expression: inside one of the ranges, by
character code, or equal to one of the single characters. -/
def inBracket (ranges : List (Char × Char)) (singles : List Char) (x : Char) : Bool :=
  ranges.any (fun r => decide (r.1 ≤ x) && decide (x ≤ r.2)) || singles.contains x

/-- All remainders after running the consumer `f` exactly `n` times in a row. -/
def repeatRun (f : List Char → List (List Char)) : Nat → List Char → List (List Char)
  | 0, s => [s]
  | n + 1, s => (f s).flatMap (repeatRun f n)

/-- The backtracking matcher: `run total r s` lists what is left of `s` after each way
in which `r` can consume a prefix of `s`; `total` is the length of the whole input, so
that `^` can tell whether `s` is still the whole input.  `a+` is `a` repeated `k + 1`
times for some `k`, and no more than `s.length + 1` repetitions need be tried. -/
def run (total : Nat) : Regex → List Char → List (List Char)
  | eps, s => [s]
  | bol, s => if s.length = total then [s] else []
  | chr c, s =>
    match s with
    | x :: t => if x = c then [t] else []
    | [] => []
  | bracket rs cs, s =>
    match s with
    | x :: t => if inBracket rs cs x then [t] else []
    | [] => []
  | seq a b, s => (run total a s).flatMap (run total b)
  | opt a, s => run total a s ++ [s]
  | rep n a, s => repeatRun (run total a) n s
  | plus a, s =>
    (List.range (s.length + 1)).flatMap (fun k => repeatRun (run total a) (k + 1) s)

/-- A run of ordinary characters. -/
def str (s : String) : Regex := s.data.foldr (fun c r => seq (chr c) r) eps

/-- The concatenation of a list of patterns. -/
def cat (rs : List Regex) : Regex := rs.foldr seq eps

end Regex

/-- The function `std::regex_match(s, r)`: true when some way of running `r` from the
start of `s` consumes the whole of `s`. -/
def regex_match (s : String) (r : Regex) : Bool :=
  (r.run s.length s.data).any List.isEmpty

namespace InputValidator

/-- The member `validQualities` (App.cpp line 261). -/
def validQualities : List Int := [144, 240, 360, 480, 720, 1080, 1440, 2160]

/-- The member `validFormats` (App.cpp line 262). -/
def validFormats : List String := ["mp4", "webm", "mkv", "avi"]

/-- The method `isValidQuality` (App.cpp lines 265-267); `std::find` over the vector
is list membership. -/
def isValidQuality (quality : Int) : Bool :=
  quality == 0 || validQualities.contains quality

/-- The method `isValidFormat` (App.cpp lines 269-271). -/
def isValidFormat (format : String) : Bool :=
  validFormats.contains format

/-- The group `(https?://)?`. -/
def optScheme : Regex :=
  .opt (Regex.cat [Regex.str "http", .opt (.chr 's'), Regex.str "://"])

/-- The group `(www\.)?`. -/
def optWww : Regex := .opt (Regex.str "www.")

/-- The bracket expression `[a-zA-Z0-9_-]`. -/
def idClass : Regex := .bracket [('a', 'z'), ('A', 'Z'), ('0', '9')] ['_', '-']

/-- The bracket expression `[a-zA-Z0-9_.-]`. -/
def handleClass : Regex := .bracket [('a', 'z'), ('A', 'Z'), ('0', '9')] ['_', '.', '-']

/-- The local vector `patterns` of `isValidURL` (App.cpp lines 275-281). -/
def patterns : List Regex :=
  [ -- ^(https?://)?(www\.)?youtube\.com/watch\?v=[a-zA-Z0-9_-]{11}
    Regex.cat [.bol, optScheme, optWww, Regex.str "youtube.com/watch?v=", .rep 11 idClass],
    -- ^(https?://)?(www\.)?youtu\.be/[a-zA-Z0-9_-]{11}
    Regex.cat [.bol, optScheme, optWww, Regex.str "youtu.be/", .rep 11 idClass],
    -- ^(https?://)?(www\.)?youtube\.com/playlist\?list=[a-zA-Z0-9_-]+
    Regex.cat [.bol, optScheme, optWww, Regex.str "youtube.com/playlist?list=", .plus idClass],
    -- ^(https?://)?(www\.)?youtube\.com/channel/[a-zA-Z0-9_-]+
    Regex.cat [.bol, optScheme, optWww, Regex.str "youtube.com/channel/", .plus idClass],
    -- ^(https?://)?(www\.)?youtube\.com/@[a-zA-Z0-9_.-]+
    Regex.cat [.bol, optScheme, optWww, Regex.str "youtube.com/@", .plus handleClass] ]

/-- The method `isValidURL` (App.cpp lines 274-289): true as soon as one pattern
matches, false when none does. -/
def isValidURL (url : String) : Bool :=
  patterns.any (fun pattern => regex_match url pattern)

end InputValidator

/-! ### The downloader

`VideoDownloader::download` talks to the outside world.  The embedding records what it
does there as a list of effects, in order; the one value that comes back from outside,
the `int` returned by `system`, is supplied by a function of the command line. -/

/-- The exceptions that the handlers of `download` tell apart: `DownloadException`, and
any other class derived from `std::exception`; the field is what `what()` returns. -/
inductive Exn where
  | downloadException (what : String)
  | exception (what : String)
  deriving DecidableEq

/-- The class `DownloadLogger`, reduced to its one data member. -/
structure DownloadLogger where
  logFile : String
  deriving DecidableEq

/-- What `download` does to the outside world. -/
inductive Effect where
  /-- one line written to `cout` -/
  | cout (line : String)
  /-- one line written to `cerr` -/
  | cerr (line : String)
  /-- a call `system(command.c_str())`: the external process is spawned -/
  | system (command : String)
  /-- a call of `waitForKeyPress()` -/
  | waitForKeyPress
  /-- a call `logger->logDownload(url, quality, format, success)` -/
  | logDownload (logger : DownloadLogger) (url : String) (quality : Int) (format : String)
      (success : Bool)
  deriving DecidableEq

/-- The command lines handed to `system` in a list of effects, in order. -/
def Effect.spawned : List Effect → List String
  | [] => []
  | .system command :: rest => command :: Effect.spawned rest
  | _ :: rest => Effect.spawned rest

/-- The calls of `logDownload` in a list of effects, in order, each with its logger and
its four arguments. -/
def Effect.logged : List Effect → List (DownloadLogger × String × Int × String × Bool)
  | [] => []
  | .logDownload logger url quality format success :: rest =>
    (logger, url, quality, format, success) :: Effect.logged rest
  | _ :: rest => Effect.logged rest

/-- The class `VideoDownloader` (App.cpp lines 418-427); `logger` is a pointer that may
be null.  The members `validator` and `commandBuilder` carry no data. -/
structure VideoDownloader where
  downloaderPath : String
  logger : Option DownloadLogger

namespace VideoDownloader

/-- The message of the exception thrown for a rejected URL (App.cpp lines 434-439). -/
def invalidUrlMessage : String :=
  "Invalid URL format!\nSupported formats:\n"
  ++ "  - Single video: youtube.com/watch?v=...\n"
  ++ "  - Short link: youtu.be/...\n"
  ++ "  - Playlist: youtube.com/playlist?list=...\n"
  ++ "  - Channel: youtube.com/channel/...\n"
  ++ "  - Username: youtube.com/@username"

/-- The message of the exception thrown after a failed run (App.cpp lines 460-465). -/
def downloadFailedMessage : String :=
  "❌ Download failed! Possible reasons:\n"
  ++ "  1. Internet connection problem\n"
  ++ "  2. Invalid or unavailable URL\n"
  ++ "  3. Video not available in your region\n"
  ++ "  4. Requested quality not available\n"
  ++ "  5. Disk space full\n"

/-- The statement `if (logger) logger->logDownload(url, quality, format, success);`. -/
def logIfPresent (logger : Option DownloadLogger) (url : String) (quality : Int)
    (format : String) (success : Bool) : List Effect :=
  match logger with
  | some l => [.logDownload l url quality format success]
  | none => []

/-- The `try` block of `download` (App.cpp lines 433-475): either the value it returns or
the exception it throws, together with the effects up to that point. -/
def downloadTry (self : VideoDownloader) (system : String → Int) (url : String)
    (quality : Int) (format outputDir : String) (audioOnly verboseMode : Bool) :
    Except Exn Bool × List Effect :=
  if !InputValidator.isValidURL url then
    (.error (.downloadException invalidUrlMessage), [])
  else
    let command := SecureCommandBuilder.buildDownloadCommand
      self.downloaderPath url outputDir quality format audioOnly
    let trace : List Effect :=
      if verboseMode then [.cout ("🔧 Command: " ++ command)] else []
    let trace := trace ++ [.cout "🚀 Starting download..."]
    let result := system command
    let trace := trace ++ [.system command]
    let success := result == 0
    if success then
      let trace := trace ++ [.cout "✅ Download successful!",
        .cout ("📁 Files saved to: " ++ outputDir)]
      let trace := trace ++ logIfPresent self.logger url quality format success
      (.ok success, trace)
    else
      (.error (.downloadException downloadFailedMessage), trace)

/-- The method `download` (App.cpp lines 429-492): the `try` block followed by its two
handlers.  The result is `.ok b` when the method returns `b` and `.error e` when the
exception `e` leaves the method. -/
def download (self : VideoDownloader) (system : String → Int) (url : String)
    (quality : Int) (format outputDir : String) (audioOnly verboseMode : Bool) :
    Except Exn Bool × List Effect :=
  match downloadTry self system url quality format outputDir audioOnly verboseMode with
  | (.ok success, trace) => (.ok success, trace)
  | (.error (.downloadException what), trace) =>
    (.ok false, trace ++ [.cerr what, .waitForKeyPress]
      ++ logIfPresent self.logger url quality format false)
  | (.error (.exception what), trace) =>
    (.ok false, trace ++ [.cerr ("❌ Unexpected error: " ++ what), .waitForKeyPress]
      ++ logIfPresent self.logger url quality format false)

end VideoDownloader

/-! ### Trimming

`trimString` works with positions in a `std::string`.  The functions below take the
content of the string as a list of characters; a position is a natural number and the
value `npos` of a failed search is `none`. -/

namespace InputValidator

/-- The member function `find_first_not_of(chars)`: the position of the first character
of `str` that is not one of `chars`, if there is one. -/
def find_first_not_of (str chars : List Char) : Option Nat :=
  match str with
  | [] => none
  | c :: rest =>
    if chars.contains c then (find_first_not_of rest chars).map (fun i => i + 1)
    else some 0

/-- The member function `find_last_not_of(chars)`: the position of the last character of
`str` that is not one of `chars`, if there is one; it is found by the same search from
the far end. -/
def find_last_not_of (str chars : List Char) : Option Nat :=
  (find_first_not_of str.reverse chars).map (fun i => str.length - 1 - i)

/-- The member function `substr(pos, len)` for a position inside the string: at most
`len` characters from position `pos` on. -/
def substr (str : List Char) (pos len : Nat) : List Char :=
  (str.drop pos).take len

/-- The method `trimString` (App.cpp lines 291-296).  When the first search succeeds the
second one does too; were it to return `npos`, the length `end - start + 1` would be
computed in `size_t` arithmetic, as written in the last branch. -/
def trimString (str : String) : String :=
  match find_first_not_of str.data " \t\n\r".data with
  | none => ""
  | some start =>
    match find_last_not_of str.data " \t\n\r".data with
    | some end_ => ⟨substr str.data start (end_ - start + 1)⟩
    | none => ⟨substr str.data start ((2 ^ 64 - 1 + 2 ^ 64 - start + 1) % 2 ^ 64)⟩

end InputValidator

/-! ### The history display

`showHistory` reads the log file line by line.  The file is given as the list of its
lines, or `none` when it cannot be opened; the result is the list of lines written to
`cout`. -/

namespace DownloadLogger

/-- The loop `while (getline(log, line) && count < maxEntries)` of `showHistory`
(App.cpp lines 158-161): the lines printed, and the final value of `count`. -/
def showHistoryLoop (maxEntries : Int) : List String → Int → List String × Int
  | [], count => ([], count)
  | line :: rest, count =>
    if count < maxEntries then
      let (printed, final) := showHistoryLoop maxEntries rest (count + 1)
      (line :: printed, final)
    else ([], count)

/-- The method `showHistory` (App.cpp lines 146-168). -/
def showHistory (log : Option (List String)) (maxEntries : Int) : List String :=
  let header := ["📜 Download History", "──────────────────────────────────────────"]
  match log with
  | none => header ++ ["No download history available."]
  | some lines =>
    let (printed, count) := showHistoryLoop maxEntries lines 0
    if count = 0 then header ++ printed ++ ["No download history."]
    else header ++ printed

end DownloadLogger

/-! ## Theorems -/

namespace SecureCommandBuilder

theorem eraseRemove_data (r : String) (c : Char) :
    (eraseRemove r c).data = r.data.filter (fun x => x != c) := rfl

/-- Folding erase-remove rounds over a list of characters keeps exactly the characters
outside that list. -/
theorem foldl_eraseRemove_data (cs : List Char) (r : String) :
    (cs.foldl eraseRemove r).data = r.data.filter (fun x => decide (x ∉ cs)) := by
  induction cs generalizing r with
  | nil => simp
  | cons c cs ih =>
    rw [List.foldl_cons, ih, eraseRemove_data, List.filter_filter]
    congr 1
    funext x
    by_cases h1 : x = c <;> by_cases h2 : x ∈ cs <;> simp [h1, h2]

theorem sanitizeInput_data (s : String) :
    (sanitizeInput s).data = s.data.filter (fun x => decide (x ∉ dangerousChars)) :=
  foldl_eraseRemove_data dangerousChars s

theorem sanitizeInput_idem (s : String) : sanitizeInput (sanitizeInput s) = sanitizeInput s := by
  apply String.ext
  rw [sanitizeInput_data, sanitizeInput_data, List.filter_filter]
  simp

theorem not_mem_sanitizeInput (s : String) (c : Char) (hc : c ∈ dangerousChars) :
    c ∉ (sanitizeInput s).data := by
  rw [sanitizeInput_data]
  intro h
  have := (List.mem_filter.mp h).2
  simp [hc] at this

end SecureCommandBuilder

/-- C1: for every string `s`, `sanitizeInput s` is `s` with every occurrence of the 13
forbidden characters deleted and every other character kept in its original order; in
particular none of the 13 characters occurs in the result. -/
theorem C1_sanitizeInput_deletes_forbidden (s : String) :
    (SecureCommandBuilder.sanitizeInput s).data
        = s.data.filter (fun x => decide (x ∉
            ['|', '&', ';', '(', ')', '$', '`', '"', '\'', '<', '>', '\n', '\r']))
      ∧ ∀ c ∈ ['|', '&', ';', '(', ')', '$', '`', '"', '\'', '<', '>', '\n', '\r'],
          c ∉ (SecureCommandBuilder.sanitizeInput s).data :=
  ⟨SecureCommandBuilder.sanitizeInput_data s,
   fun c hc => SecureCommandBuilder.not_mem_sanitizeInput s c hc⟩

/-- C2: `sanitizeInput` is idempotent: sanitizing a sanitized string changes nothing. -/
theorem C2_sanitizeInput_idempotent (s : String) :
    SecureCommandBuilder.sanitizeInput (SecureCommandBuilder.sanitizeInput s)
      = SecureCommandBuilder.sanitizeInput s :=
  SecureCommandBuilder.sanitizeInput_idem s

/-! ### The characters of a built command -/

namespace SecureCommandBuilder

theorem digitChar_isDigit : ∀ k, k < 10 → (Nat.digitChar k).isDigit = true := by decide

/-- The digit loop of the decimal rendering only ever adds digits to its accumulator. -/
theorem toDigitsCore_chars (fuel : Nat) : ∀ (n : Nat) (acc : List Char),
    ∀ c ∈ Nat.toDigitsCore 10 fuel n acc, c.isDigit = true ∨ c ∈ acc := by
  induction fuel with
  | zero => intro n acc c hc; right; simpa [Nat.toDigitsCore] using hc
  | succ fuel ih =>
    intro n acc c hc
    have hd : (Nat.digitChar (n % 10)).isDigit = true :=
      digitChar_isDigit _ (Nat.mod_lt _ (by decide))
    rw [Nat.toDigitsCore] at hc
    split at hc
    · rcases List.mem_cons.mp hc with h | h
      · left; rw [h]; exact hd
      · right; exact h
    · rcases ih _ _ c hc with h | h
      · left; exact h
      · rcases List.mem_cons.mp h with h | h
        · left; rw [h]; exact hd
        · right; exact h

theorem nat_repr_chars (n : Nat) : ∀ c ∈ (Nat.repr n).data, c.isDigit = true := by
  intro c hc
  have hmem : c ∈ Nat.toDigits 10 n := by simpa [Nat.repr, List.asString] using hc
  rcases toDigitsCore_chars _ _ _ c hmem with h | h
  · exact h
  · simp at h

/-- The decimal rendering of an `int` consists of digits and possibly a minus sign. -/
theorem to_string_chars (n : Int) :
    ∀ c ∈ (to_string n).data, c.isDigit = true ∨ c = '-' := by
  intro c hc
  cases n with
  | ofNat m => exact Or.inl (nat_repr_chars m c hc)
  | negSucc m =>
    have h : (to_string (Int.negSucc m)).data = '-' :: (Nat.repr (m + 1)).data := rfl
    rw [h] at hc
    rcases List.mem_cons.mp hc with h | h
    · exact Or.inr h
    · exact Or.inl (nat_repr_chars _ c h)

/-- Characters absent from two strings are absent from their concatenation. -/
theorem absent_append (bad : List Char) (s t : String)
    (hs : ∀ c ∈ bad, c ∉ s.data) (ht : ∀ c ∈ bad, c ∉ t.data) :
    ∀ c ∈ bad, c ∉ (s ++ t).data := by
  intro c hc
  rw [String.data_append, List.mem_append]
  rintro (h | h)
  · exact hs c hc h
  · exact ht c hc h

theorem absent_sanitizeInput (bad : List Char) (hbad : ∀ c ∈ bad, c ∈ dangerousChars)
    (s : String) : ∀ c ∈ bad, c ∉ (sanitizeInput s).data :=
  fun c hc => not_mem_sanitizeInput s c (hbad c hc)

theorem absent_to_string (bad : List Char)
    (hbad : ∀ c ∈ bad, c.isDigit = false ∧ c ≠ '-') (n : Int) :
    ∀ c ∈ bad, c ∉ (to_string n).data := by
  intro c hc hmem
  rcases to_string_chars n c hmem with h | h
  · rw [(hbad c hc).1] at h; exact Bool.false_ne_true h
  · exact (hbad c hc).2 h

/-- None of the fixed fragments of the command line holds one of the ten characters. -/
theorem literal_absent :
    ∀ l ∈ ["\"", " -o ", " -f \"bestaudio/best\" --extract-audio --audio-format mp3",
        " -f \"best[height<=2160][ext=", "]/best[height<=2160]/best\"",
        " -f \"best[height<=", "][ext=", "]/best[height<=", "]/best\"",
        " --write-info-json --write-thumbnail --embed-subs --write-auto-sub", " "],
      ∀ c ∈ ['$', '`', ';', '|', '&', '(', ')', '\'', '\n', '\r'], c ∉ String.data l := by
  decide

end SecureCommandBuilder

/-- C3: for every downloader path, url, output directory, quality and audio flag, and
every format of the whitelist mp4, webm, mkv, avi, the command returned by
`buildDownloadCommand` contains no dollar sign, backtick, semicolon, bar, ampersand,
parenthesis, single quote, line feed or carriage return. -/
theorem C3_buildDownloadCommand_no_shell_specials
    (downloaderPath url outputDir : String) (quality : Int) (format : String)
    (audioOnly : Bool) (hformat : format ∈ ["mp4", "webm", "mkv", "avi"]) :
    ∀ c ∈ ['$', '`', ';', '|', '&', '(', ')', '\'', '\n', '\r'],
      c ∉ (SecureCommandBuilder.buildDownloadCommand
            downloaderPath url outputDir quality format audioOnly).data := by
  have hsan := SecureCommandBuilder.absent_sanitizeInput
    ['$', '`', ';', '|', '&', '(', ')', '\'', '\n', '\r'] (by decide)
  have hnum := SecureCommandBuilder.absent_to_string
    ['$', '`', ';', '|', '&', '(', ')', '\'', '\n', '\r'] (by decide) quality
  have hfmt : ∀ c ∈ ['$', '`', ';', '|', '&', '(', ')', '\'', '\n', '\r'],
      c ∉ format.data := by
    simp only [List.mem_cons, List.mem_singleton, List.not_mem_nil, or_false] at hformat
    rcases hformat with h | h | h | h <;> subst h <;> decide
  intro c hc
  have h1 := hsan downloaderPath c hc
  have h2 := hsan (outputDir ++ "/%(uploader)s - %(title)s.%(ext)s") c hc
  have h3 := hsan (SecureCommandBuilder.sanitizeInput url) c hc
  have h4 := hnum c hc
  have h5 := hfmt c hc
  have l1 : c ∉ "\"".data := SecureCommandBuilder.literal_absent _ (by decide) c hc
  have l2 : c ∉ " -o ".data := SecureCommandBuilder.literal_absent _ (by decide) c hc
  have l3 : c ∉ " -f \"bestaudio/best\" --extract-audio --audio-format mp3".data :=
    SecureCommandBuilder.literal_absent _ (by decide) c hc
  have l4 : c ∉ " -f \"best[height<=2160][ext=".data :=
    SecureCommandBuilder.literal_absent _ (by decide) c hc
  have l5 : c ∉ "]/best[height<=2160]/best\"".data :=
    SecureCommandBuilder.literal_absent _ (by decide) c hc
  have l6 : c ∉ " -f \"best[height<=".data :=
    SecureCommandBuilder.literal_absent _ (by decide) c hc
  have l7 : c ∉ "][ext=".data := SecureCommandBuilder.literal_absent _ (by decide) c hc
  have l8 : c ∉ "]/best[height<=".data :=
    SecureCommandBuilder.literal_absent _ (by decide) c hc
  have l9 : c ∉ "]/best\"".data := SecureCommandBuilder.literal_absent _ (by decide) c hc
  have l10 :
      c ∉ " --write-info-json --write-thumbnail --embed-subs --write-auto-sub".data :=
    SecureCommandBuilder.literal_absent _ (by decide) c hc
  have l11 : c ∉ " ".data := SecureCommandBuilder.literal_absent _ (by decide) c hc
  unfold SecureCommandBuilder.buildDownloadCommand SecureCommandBuilder.escapeForShell
  dsimp only
  split_ifs
  all_goals simp only [String.data_append, List.mem_append, not_or, h1, h2, h3, h4, h5,
    l1, l2, l3, l4, l5, l6, l7, l8, l9, l10, l11, not_false_eq_true, and_self]

/-- C3, at the url of the specification: the command built for
`http://a.com/$(rm -rf /)` with quality 0 and format mp4 has no dollar sign, hence no
`$(` sequence, and none of the other nine characters. -/
theorem C3_buildDownloadCommand_no_shell_specials_witness :
    "mp4" ∈ ["mp4", "webm", "mkv", "avi"] ∧
    ∀ c ∈ ['$', '`', ';', '|', '&', '(', ')', '\'', '\n', '\r'],
      c ∉ (SecureCommandBuilder.buildDownloadCommand
            "./libs/yt-dlp" "http://a.com/$(rm -rf /)" "downloads" 0 "mp4" false).data :=
  ⟨by decide,
   C3_buildDownloadCommand_no_shell_specials
     "./libs/yt-dlp" "http://a.com/$(rm -rf /)" "downloads" 0 "mp4" false (by decide)⟩

/-! ### Which arguments of the builder are sanitized -/

namespace SecureCommandBuilder

end SecureCommandBuilder

/-- C7: for every integer `q`, `isValidQuality q` is true exactly when `q` is one of
0, 144, 240, 360, 480, 720, 1080, 1440, 2160. -/
theorem C7_isValidQuality_iff (q : Int) :
    InputValidator.isValidQuality q = true
      ↔ q ∈ ([0, 144, 240, 360, 480, 720, 1080, 1440, 2160] : List Int) := by
  simp [InputValidator.isValidQuality, InputValidator.validQualities]

/-- C8: for every string `f`, `isValidFormat f` is true exactly when `f` is one of
mp4, webm, mkv, avi; the comparison is exact and case-sensitive, so `MP4`, `mp4` with a
trailing blank and the empty string are rejected. -/
theorem C8_isValidFormat_iff (f : String) :
    (InputValidator.isValidFormat f = true
      ↔ f = "mp4" ∨ f = "webm" ∨ f = "mkv" ∨ f = "avi")
    ∧ InputValidator.isValidFormat "MP4" = false
    ∧ InputValidator.isValidFormat "mp4 " = false
    ∧ InputValidator.isValidFormat "" = false := by
  refine ⟨?_, by decide, by decide, by decide⟩
  simp [InputValidator.isValidFormat, InputValidator.validFormats]

/-! ### The matcher, construct by construct -/

namespace Regex

theorem mem_run_eps (total : Nat) (s t : List Char) : t ∈ run total eps s ↔ t = s := by
  simp [run]

theorem mem_run_bol (total : Nat) (s t : List Char) :
    t ∈ run total bol s ↔ t = s ∧ s.length = total := by
  unfold run
  split_ifs with h <;> simp [h]

theorem mem_run_chr (total : Nat) (c : Char) (s t : List Char) :
    t ∈ run total (chr c) s ↔ s = c :: t := by
  cases s with
  | nil => simp [run]
  | cons x s =>
    unfold run
    by_cases h : x = c
    · simp [h, eq_comm]
    · simp [h]

theorem mem_run_bracket (total : Nat) (rs : List (Char × Char)) (cs : List Char)
    (s t : List Char) :
    t ∈ run total (bracket rs cs) s ↔ ∃ x, s = x :: t ∧ inBracket rs cs x = true := by
  cases s with
  | nil => simp [run]
  | cons x s =>
    unfold run
    dsimp only
    by_cases h : inBracket rs cs x = true
    · rw [if_pos h, List.mem_singleton]
      constructor
      · intro ht; exact ⟨x, by rw [ht], h⟩
      · rintro ⟨y, hy, _⟩; exact (List.cons.inj hy).2.symm
    · rw [if_neg h]
      constructor
      · intro ht; exact absurd ht (List.not_mem_nil _)
      · rintro ⟨y, hy, hb⟩
        rw [(List.cons.inj hy).1] at h
        exact absurd hb h

theorem mem_run_seq (total : Nat) (a b : Regex) (s t : List Char) :
    t ∈ run total (seq a b) s ↔ ∃ u, u ∈ run total a s ∧ t ∈ run total b u := by
  simp [run, List.mem_flatMap]

theorem mem_run_opt (total : Nat) (a : Regex) (s t : List Char) :
    t ∈ run total (opt a) s ↔ t ∈ run total a s ∨ t = s := by
  simp [run]

/-- A run of ordinary characters consumes exactly itself. -/
theorem mem_run_str (total : Nat) (w : String) (s t : List Char) :
    t ∈ run total (str w) s ↔ s = w.data ++ t := by
  obtain ⟨l⟩ := w
  unfold str
  induction l generalizing s with
  | nil => simp [run, eq_comm]
  | cons c l ih =>
    simp only [List.foldr_cons]
    rw [mem_run_seq]
    constructor
    · rintro ⟨u, hu, ht⟩
      rw [mem_run_chr] at hu
      rw [ih] at ht
      simp [hu, ht]
    · intro h
      refine ⟨l ++ t, ?_, ?_⟩
      · rw [mem_run_chr]; simpa using h
      · rw [ih]

theorem mem_run_cat_nil (total : Nat) (s t : List Char) :
    t ∈ run total (cat []) s ↔ t = s := mem_run_eps total s t

theorem mem_run_cat_cons (total : Nat) (r : Regex) (rs : List Regex) (s t : List Char) :
    t ∈ run total (cat (r :: rs)) s ↔ ∃ u, u ∈ run total r s ∧ t ∈ run total (cat rs) u :=
  mem_run_seq total r (cat rs) s t

/-- Running a bracket expression `n` times consumes exactly `n` characters of it. -/
theorem mem_repeatRun_bracket (total : Nat) (rs : List (Char × Char)) (cs : List Char)
    (n : Nat) (s t : List Char) :
    t ∈ repeatRun (run total (bracket rs cs)) n s
      ↔ ∃ p, s = p ++ t ∧ p.length = n ∧ ∀ x ∈ p, inBracket rs cs x = true := by
  induction n generalizing s with
  | zero =>
    simp only [repeatRun, List.mem_singleton, List.length_eq_zero]
    constructor
    · intro h; exact ⟨[], by simp [h], rfl, by simp⟩
    · rintro ⟨p, hs, hp, _⟩; subst hp; simpa using hs.symm
  | succ n ih =>
    simp only [repeatRun, List.mem_flatMap]
    constructor
    · rintro ⟨u, hu, ht⟩
      rw [mem_run_bracket] at hu
      obtain ⟨x, hs, hx⟩ := hu
      obtain ⟨p, hu', hp, hall⟩ := (ih u).mp ht
      refine ⟨x :: p, by simp [hs, hu'], by simp [hp], ?_⟩
      intro y hy
      rcases List.mem_cons.mp hy with h | h
      · rw [h]; exact hx
      · exact hall y h
    · rintro ⟨p, hs, hp, hall⟩
      cases p with
      | nil => simp at hp
      | cons x p =>
        refine ⟨p ++ t, ?_, ?_⟩
        · rw [mem_run_bracket]
          exact ⟨x, by simpa using hs, hall x (List.mem_cons_self _ _)⟩
        · rw [ih]
          exact ⟨p, rfl, by simpa using hp, fun y hy => hall y (List.mem_cons_of_mem _ hy)⟩

theorem mem_run_rep_bracket (total : Nat) (rs : List (Char × Char)) (cs : List Char)
    (n : Nat) (s t : List Char) :
    t ∈ run total (rep n (bracket rs cs)) s
      ↔ ∃ p, s = p ++ t ∧ p.length = n ∧ ∀ x ∈ p, inBracket rs cs x = true := by
  rw [run]
  exact mem_repeatRun_bracket total rs cs n s t

/-- The quantifier `+` on a bracket expression consumes any non-empty run of its characters;
the bound on the number of repetitions in `run` loses nothing. -/
theorem mem_run_plus_bracket (total : Nat) (rs : List (Char × Char)) (cs : List Char)
    (s t : List Char) :
    t ∈ run total (plus (bracket rs cs)) s
      ↔ ∃ p, s = p ++ t ∧ p ≠ [] ∧ ∀ x ∈ p, inBracket rs cs x = true := by
  rw [run]
  simp only [List.mem_flatMap, List.mem_range, mem_repeatRun_bracket]
  constructor
  · rintro ⟨k, _, p, hs, hp, hall⟩
    refine ⟨p, hs, ?_, hall⟩
    intro h
    rw [h] at hp
    simp at hp
  · rintro ⟨p, hs, hp, hall⟩
    refine ⟨p.length - 1, ?_, p, hs, ?_, hall⟩
    · have : p.length ≤ s.length := by rw [hs]; simp
      omega
    · have : 0 < p.length := List.length_pos.mpr hp
      omega

end Regex

namespace InputValidator
open Regex

theorem mem_run_optScheme (total : Nat) (s t : List Char) :
    t ∈ run total optScheme s
      ↔ s = "http://".data ++ t ∨ s = "https://".data ++ t ∨ t = s := by
  unfold optScheme
  simp only [mem_run_opt, mem_run_cat_cons, mem_run_cat_nil, mem_run_str, mem_run_chr]
  constructor
  · rintro (⟨u, hu, v, hv, w, hw, ht⟩ | h)
    · subst ht
      rcases hv with hv | hv
      · right; left; subst hu; subst hv; subst hw; rfl
      · left; subst hu; subst hv; subst hw; rfl
    · right; right; exact h
  · rintro (h | h | h)
    · left
      exact ⟨"://".data ++ t, by rw [h]; rfl, "://".data ++ t, Or.inr rfl, t, rfl, rfl⟩
    · left
      exact ⟨'s' :: "://".data ++ t, by rw [h]; rfl, "://".data ++ t, Or.inl rfl, t, rfl, rfl⟩
    · right; exact h

theorem mem_run_optWww (total : Nat) (s t : List Char) :
    t ∈ run total optWww s ↔ s = "www.".data ++ t ∨ t = s := by
  unfold optWww
  simp only [mem_run_opt, mem_run_str]

/-- What `regex_match` asks of an input for a pattern of the common form
`^(https?://)?(www\.)?` + fixed text + tail. -/
theorem regex_match_url_pattern (url lit : String) (tail : Regex) :
    regex_match url (cat [bol, optScheme, optWww, str lit, tail]) = true
      ↔ ∃ sch ∈ ["", "http://", "https://"], ∃ w ∈ ["", "www."], ∃ p : List Char,
          url.data = (sch ++ w ++ lit).data ++ p ∧ [] ∈ run url.length tail p := by
  unfold regex_match
  simp only [List.any_eq_true, List.isEmpty_iff]
  constructor
  · rintro ⟨t, ht, rfl⟩
    simp only [mem_run_cat_cons, mem_run_cat_nil, mem_run_bol, mem_run_optScheme,
      mem_run_optWww, mem_run_str] at ht
    obtain ⟨u0, ⟨hu0, _⟩, u1, hs, u2, hw, u3, hl, u4, htail, h4⟩ := ht
    subst h4
    subst hu0
    rcases hs with hs | hs | hs <;> rcases hw with hw | hw
    · exact ⟨"http://", by simp, "www.", by simp, u3,
        by rw [hs, hw, hl]; simp [String.data_append], htail⟩
    · exact ⟨"http://", by simp, "", by simp, u3,
        by rw [hs, ← hw, hl]; simp [String.data_append], htail⟩
    · exact ⟨"https://", by simp, "www.", by simp, u3,
        by rw [hs, hw, hl]; simp [String.data_append], htail⟩
    · exact ⟨"https://", by simp, "", by simp, u3,
        by rw [hs, ← hw, hl]; simp [String.data_append], htail⟩
    · exact ⟨"", by simp, "www.", by simp, u3,
        by rw [← hs, hw, hl]; simp [String.data_append], htail⟩
    · exact ⟨"", by simp, "", by simp, u3,
        by rw [← hs, ← hw, hl]; simp [String.data_append], htail⟩
  · rintro ⟨sch, hsch, w, hw, p, hurl, htail⟩
    refine ⟨[], ?_, rfl⟩
    simp only [mem_run_cat_cons, mem_run_cat_nil, mem_run_bol, mem_run_optScheme,
      mem_run_optWww, mem_run_str]
    refine ⟨url.data, ⟨rfl, rfl⟩, w.data ++ lit.data ++ p, ?_, lit.data ++ p, ?_,
      p, rfl, [], htail, rfl⟩
    · simp only [List.mem_cons, List.mem_singleton, List.not_mem_nil, or_false] at hsch
      rcases hsch with h | h | h <;> subst h <;>
        simp [hurl, String.data_append]
    · simp only [List.mem_cons, List.mem_singleton, List.not_mem_nil, or_false] at hw
      rcases hw with h | h <;> subst h <;> simp

/-- The loop of `isValidURL`, pattern by pattern. -/
theorem isValidURL_iff (url : String) :
    isValidURL url = true ↔
      regex_match url
          (cat [bol, optScheme, optWww, str "youtube.com/watch?v=", rep 11 idClass]) = true
      ∨ regex_match url
          (cat [bol, optScheme, optWww, str "youtu.be/", rep 11 idClass]) = true
      ∨ regex_match url
          (cat [bol, optScheme, optWww, str "youtube.com/playlist?list=", plus idClass]) = true
      ∨ regex_match url
          (cat [bol, optScheme, optWww, str "youtube.com/channel/", plus idClass]) = true
      ∨ regex_match url
          (cat [bol, optScheme, optWww, str "youtube.com/@", plus handleClass]) = true := by
  simp only [isValidURL, patterns, List.any_cons, List.any_nil, Bool.or_false,
    Bool.or_eq_true]

theorem inBracket_idClass (c : Char) :
    inBracket [('a', 'z'), ('A', 'Z'), ('0', '9')] ['_', '-'] c = true
      ↔ ('a' ≤ c ∧ c ≤ 'z') ∨ ('A' ≤ c ∧ c ≤ 'Z') ∨ ('0' ≤ c ∧ c ≤ '9')
          ∨ c = '_' ∨ c = '-' := by
  simp [inBracket, or_assoc]

theorem inBracket_handleClass (c : Char) :
    inBracket [('a', 'z'), ('A', 'Z'), ('0', '9')] ['_', '.', '-'] c = true
      ↔ ('a' ≤ c ∧ c ≤ 'z') ∨ ('A' ≤ c ∧ c ≤ 'Z') ∨ ('0' ≤ c ∧ c ≤ '9')
          ∨ c = '_' ∨ c = '.' ∨ c = '-' := by
  simp [inBracket, or_assoc]

end InputValidator

/-! ### Which urls are accepted -/

/-- C6: for every 11-character id over `[A-Za-z0-9_-]`, every scheme among the empty
string, `http://` and `https://`, and every www among the empty string and `www.`,
`isValidURL` accepts scheme ++ www ++ `youtube.com/watch?v=` ++ id and
scheme ++ www ++ `youtu.be/` ++ id; it rejects `https://example.com/video` and accepts
`https://www.youtube.com/watch?v=dQw4w9WgXcQ` and `youtu.be/dQw4w9WgXcQ`. -/
theorem C6_isValidURL_video_urls (scheme www id : String)
    (hscheme : scheme ∈ ["", "http://", "https://"]) (hwww : www ∈ ["", "www."])
    (hlen : id.length = 11)
    (hid : ∀ c ∈ id.data, ('a' ≤ c ∧ c ≤ 'z') ∨ ('A' ≤ c ∧ c ≤ 'Z') ∨ ('0' ≤ c ∧ c ≤ '9')
      ∨ c = '_' ∨ c = '-') :
    InputValidator.isValidURL (scheme ++ www ++ "youtube.com/watch?v=" ++ id) = true
    ∧ InputValidator.isValidURL (scheme ++ www ++ "youtu.be/" ++ id) = true
    ∧ InputValidator.isValidURL "https://example.com/video" = false
    ∧ InputValidator.isValidURL "https://www.youtube.com/watch?v=dQw4w9WgXcQ" = true
    ∧ InputValidator.isValidURL "youtu.be/dQw4w9WgXcQ" = true := by
  have htail : ∀ total, [] ∈ Regex.run total (.rep 11 InputValidator.idClass) id.data := by
    intro total
    unfold InputValidator.idClass
    rw [Regex.mem_run_rep_bracket]
    exact ⟨id.data, by simp, hlen,
      fun c hc => (InputValidator.inBracket_idClass c).mpr (hid c hc)⟩
  refine ⟨?_, ?_, by decide, by decide, by decide⟩
  · rw [InputValidator.isValidURL_iff]
    left
    rw [InputValidator.regex_match_url_pattern]
    exact ⟨scheme, hscheme, www, hwww, id.data, by simp only [String.data_append], htail _⟩
  · rw [InputValidator.isValidURL_iff]
    right; left
    rw [InputValidator.regex_match_url_pattern]
    exact ⟨scheme, hscheme, www, hwww, id.data, by simp only [String.data_append], htail _⟩


/-- C6 at scheme `https://`, www `www.` and id `dQw4w9WgXcQ`. -/
theorem C6_isValidURL_video_urls_witness :
    InputValidator.isValidURL ("https://" ++ "www." ++ "youtube.com/watch?v=" ++ "dQw4w9WgXcQ")
      = true
    ∧ InputValidator.isValidURL ("https://" ++ "www." ++ "youtu.be/" ++ "dQw4w9WgXcQ") = true
    ∧ InputValidator.isValidURL "https://example.com/video" = false
    ∧ InputValidator.isValidURL "https://www.youtube.com/watch?v=dQw4w9WgXcQ" = true
    ∧ InputValidator.isValidURL "youtu.be/dQw4w9WgXcQ" = true :=
  C6_isValidURL_video_urls "https://" "www." "dQw4w9WgXcQ"
    (by decide) (by decide) (by decide) (by decide)

namespace InputValidator
open Regex

set_option maxRecDepth 100000 in
/-- No head of an accepted url is a proper prefix of another head. -/
theorem heads_prefix_free :
    ∀ sch1 ∈ ["", "http://", "https://"], ∀ w1 ∈ ["", "www."],
    ∀ l1 ∈ ["youtube.com/watch?v=", "youtu.be/", "youtube.com/playlist?list=",
      "youtube.com/channel/", "youtube.com/@"],
    ∀ sch2 ∈ ["", "http://", "https://"], ∀ w2 ∈ ["", "www."],
    ∀ l2 ∈ ["youtube.com/watch?v=", "youtu.be/", "youtube.com/playlist?list=",
      "youtube.com/channel/", "youtube.com/@"],
      (sch1 ++ w1 ++ l1).data <+: (sch2 ++ w2 ++ l2).data →
        sch1 ++ w1 ++ l1 = sch2 ++ w2 ++ l2 := by
  decide

theorem inBracket_idClass_handleClass (c : Char)
    (h : inBracket [('a', 'z'), ('A', 'Z'), ('0', '9')] ['_', '-'] c = true) :
    inBracket [('a', 'z'), ('A', 'Z'), ('0', '9')] ['_', '.', '-'] c = true := by
  rw [inBracket_idClass] at h
  rw [inBracket_handleClass]
  tauto

/-- Every accepted url is one of the thirty fixed heads followed by a non-empty run of
characters of `[a-zA-Z0-9_.-]`. -/
theorem isValidURL_shape (url : String) (h : isValidURL url = true) :
    ∃ sch ∈ ["", "http://", "https://"], ∃ w ∈ ["", "www."],
    ∃ lit ∈ ["youtube.com/watch?v=", "youtu.be/", "youtube.com/playlist?list=",
      "youtube.com/channel/", "youtube.com/@"],
    ∃ p : List Char, url.data = (sch ++ w ++ lit).data ++ p ∧ p ≠ [] ∧
      ∀ c ∈ p, inBracket [('a', 'z'), ('A', 'Z'), ('0', '9')] ['_', '.', '-'] c = true := by
  rw [isValidURL_iff] at h
  simp only [regex_match_url_pattern, idClass, handleClass, mem_run_rep_bracket,
    mem_run_plus_bracket] at h
  rcases h with h | h | h | h | h
  all_goals obtain ⟨sch, hs, w, hw, p, hurl, q, hq, hlen, hall⟩ := h
  all_goals rw [List.append_nil] at hq
  all_goals subst hq
  · exact ⟨sch, hs, w, hw, _, by simp, p, hurl, by rintro rfl; simp at hlen,
      fun c hc => inBracket_idClass_handleClass c (hall c hc)⟩
  · exact ⟨sch, hs, w, hw, _, by simp, p, hurl, by rintro rfl; simp at hlen,
      fun c hc => inBracket_idClass_handleClass c (hall c hc)⟩
  · exact ⟨sch, hs, w, hw, _, by simp, p, hurl, hlen,
      fun c hc => inBracket_idClass_handleClass c (hall c hc)⟩
  · exact ⟨sch, hs, w, hw, _, by simp, p, hurl, hlen,
      fun c hc => inBracket_idClass_handleClass c (hall c hc)⟩
  · exact ⟨sch, hs, w, hw, _, by simp, p, hurl, hlen, hall⟩

/-- When a url and an extension of it are both accepted, the extension adds only
characters of `[a-zA-Z0-9_.-]`. -/
theorem isValidURL_suffix_chars (u s : String) (hu : isValidURL u = true)
    (hus : isValidURL (u ++ s) = true) :
    ∀ c ∈ s.data, inBracket [('a', 'z'), ('A', 'Z'), ('0', '9')] ['_', '.', '-'] c = true := by
  obtain ⟨sch1, hs1, w1, hw1, l1, hl1, p1, hd1, -, -⟩ := isValidURL_shape u hu
  obtain ⟨sch2, hs2, w2, hw2, l2, hl2, p2, hd2, -, hall⟩ := isValidURL_shape (u ++ s) hus
  rw [String.data_append, hd1, List.append_assoc] at hd2
  have hp1 : (sch1 ++ w1 ++ l1).data <+: (sch2 ++ w2 ++ l2).data ++ p2 :=
    ⟨p1 ++ s.data, hd2⟩
  have hp2 : (sch2 ++ w2 ++ l2).data <+: (sch2 ++ w2 ++ l2).data ++ p2 :=
    List.prefix_append _ _
  have heq : sch1 ++ w1 ++ l1 = sch2 ++ w2 ++ l2 := by
    rcases List.prefix_or_prefix_of_prefix hp1 hp2 with h | h
    · exact heads_prefix_free sch1 hs1 w1 hw1 l1 hl1 sch2 hs2 w2 hw2 l2 hl2 h
    · exact (heads_prefix_free sch2 hs2 w2 hw2 l2 hl2 sch1 hs1 w1 hw1 l1 hl1 h).symm
  rw [heq] at hd2
  have hp : p1 ++ s.data = p2 := List.append_cancel_left hd2
  intro c hc
  exact hall c (by rw [← hp]; exact List.mem_append_right _ hc)

end InputValidator

/-- C5, refuted as stated: `https://www.youtube.com/watch?v=dQw4w9WgXcQ` is accepted,
and the same url followed by the query string `&t=10s` is rejected. -/
theorem C5_isValidURL_prefix_counterexample :
    InputValidator.isValidURL "https://www.youtube.com/watch?v=dQw4w9WgXcQ" = true
    ∧ InputValidator.isValidURL ("https://www.youtube.com/watch?v=dQw4w9WgXcQ" ++ "&t=10s")
        = false := by
  decide

/-- C5, amended: `isValidURL` matches the whole string, not a prefix.  For every accepted
`u` and every suffix `s` holding a character outside `[A-Za-z0-9_.-]`, the string
`u ++ s` is rejected. -/
theorem C5_isValidURL_whole_string (u s : String) (hu : InputValidator.isValidURL u = true)
    (hs : ∃ c ∈ s.data, ¬ (('a' ≤ c ∧ c ≤ 'z') ∨ ('A' ≤ c ∧ c ≤ 'Z') ∨ ('0' ≤ c ∧ c ≤ '9')
      ∨ c = '_' ∨ c = '.' ∨ c = '-')) :
    InputValidator.isValidURL (u ++ s) = false := by
  obtain ⟨c, hc, hbad⟩ := hs
  cases hus : InputValidator.isValidURL (u ++ s) with
  | false => rfl
  | true =>
    exact absurd ((InputValidator.inBracket_handleClass c).mp
      (InputValidator.isValidURL_suffix_chars u s hu hus c hc)) hbad

/-- C5, amended, at the channel url `youtube.com/channel/UCabc` and the suffix `/videos`. -/
theorem C5_isValidURL_whole_string_witness :
    InputValidator.isValidURL "youtube.com/channel/UCabc" = true
    ∧ (∃ c ∈ "/videos".data, ¬ (('a' ≤ c ∧ c ≤ 'z') ∨ ('A' ≤ c ∧ c ≤ 'Z')
        ∨ ('0' ≤ c ∧ c ≤ '9') ∨ c = '_' ∨ c = '.' ∨ c = '-'))
    ∧ InputValidator.isValidURL ("youtube.com/channel/UCabc" ++ "/videos") = false :=
  ⟨by decide, ⟨'/', by decide, by decide⟩,
   C5_isValidURL_whole_string "youtube.com/channel/UCabc" "/videos" (by decide) ⟨'/', by decide, by decide⟩⟩

/-! ### The downloader: validation, spawn and result -/

namespace VideoDownloader

theorem spawned_append (xs ys : List Effect) :
    Effect.spawned (xs ++ ys) = Effect.spawned xs ++ Effect.spawned ys := by
  induction xs with
  | nil => rfl
  | cons x xs ih => cases x <;> simp [Effect.spawned, ih]

theorem spawned_logIfPresent (logger : Option DownloadLogger) (url : String) (quality : Int)
    (format : String) (success : Bool) :
    Effect.spawned (logIfPresent logger url quality format success) = [] := by
  cases logger <;> rfl

end VideoDownloader

/-- C9: for every url that `isValidURL` rejects, and every quality, format, output
directory, audio flag and verbose flag, `download` returns false, hands no command to
`system`, and behaves the same whatever `system` would have returned. -/
theorem C9_download_rejects_before_spawn (self : VideoDownloader)
    (system system' : String → Int) (url : String)
    (quality : Int) (format outputDir : String) (audioOnly verboseMode : Bool)
    (hurl : InputValidator.isValidURL url = false) :
    (self.download system url quality format outputDir audioOnly verboseMode).1 = .ok false
    ∧ Effect.spawned
        (self.download system url quality format outputDir audioOnly verboseMode).2 = []
    ∧ self.download system url quality format outputDir audioOnly verboseMode
        = self.download system' url quality format outputDir audioOnly verboseMode := by
  simp [VideoDownloader.download, VideoDownloader.downloadTry, hurl,
    VideoDownloader.spawned_append, VideoDownloader.spawned_logIfPresent, Effect.spawned]

/-- C9 at the url `https://example.com/video`. -/
theorem C9_download_rejects_before_spawn_witness :
    InputValidator.isValidURL "https://example.com/video" = false
    ∧ (VideoDownloader.download ⟨"./libs/yt-dlp", some ⟨"logs/download_log.txt"⟩⟩
        (fun _ => 0) "https://example.com/video" 720 "mp4" "downloads" false true).1
      = .ok false
    ∧ Effect.spawned
        (VideoDownloader.download ⟨"./libs/yt-dlp", some ⟨"logs/download_log.txt"⟩⟩
          (fun _ => 0) "https://example.com/video" 720 "mp4" "downloads" false true).2 = []
    ∧ VideoDownloader.download ⟨"./libs/yt-dlp", some ⟨"logs/download_log.txt"⟩⟩
          (fun _ => 0) "https://example.com/video" 720 "mp4" "downloads" false true
        = VideoDownloader.download ⟨"./libs/yt-dlp", some ⟨"logs/download_log.txt"⟩⟩
          (fun _ => 1) "https://example.com/video" 720 "mp4" "downloads" false true :=
  ⟨by decide,
   C9_download_rejects_before_spawn ⟨"./libs/yt-dlp", some ⟨"logs/download_log.txt"⟩⟩
     (fun _ => 0) (fun _ => 1) "https://example.com/video" 720 "mp4" "downloads" false true
     (by decide)⟩

/-- C10: for every url that `isValidURL` accepts, `download` hands exactly one command to
`system`, the one built by `buildDownloadCommand`, and returns, without an exception
leaving it, true when `system` returned 0 and false when it returned anything else. -/
theorem C10_download_spawns_once (self : VideoDownloader)
    (system : String → Int) (url : String)
    (quality : Int) (format outputDir : String) (audioOnly verboseMode : Bool)
    (hurl : InputValidator.isValidURL url = true) :
    Effect.spawned
        (self.download system url quality format outputDir audioOnly verboseMode).2
      = [SecureCommandBuilder.buildDownloadCommand
          self.downloaderPath url outputDir quality format audioOnly]
    ∧ (self.download system url quality format outputDir audioOnly verboseMode).1
      = .ok (decide (system (SecureCommandBuilder.buildDownloadCommand
          self.downloaderPath url outputDir quality format audioOnly) = 0)) := by
  by_cases hres : system (SecureCommandBuilder.buildDownloadCommand
      self.downloaderPath url outputDir quality format audioOnly) = 0 <;>
    cases verboseMode <;>
    simp [VideoDownloader.download, VideoDownloader.downloadTry, hurl, hres,
      VideoDownloader.spawned_append, VideoDownloader.spawned_logIfPresent, Effect.spawned]

/-- C10 at the url `https://youtu.be/dQw4w9WgXcQ` with `system` returning 256. -/
theorem C10_download_spawns_once_witness :
    InputValidator.isValidURL "https://youtu.be/dQw4w9WgXcQ" = true
    ∧ Effect.spawned
        (VideoDownloader.download ⟨"./libs/yt-dlp", none⟩ (fun _ => 256)
          "https://youtu.be/dQw4w9WgXcQ" 720 "mp4" "downloads" false false).2
      = [SecureCommandBuilder.buildDownloadCommand
          "./libs/yt-dlp" "https://youtu.be/dQw4w9WgXcQ" "downloads" 720 "mp4" false]
    ∧ (VideoDownloader.download ⟨"./libs/yt-dlp", none⟩ (fun _ => 256)
          "https://youtu.be/dQw4w9WgXcQ" 720 "mp4" "downloads" false false).1
      = .ok (decide ((fun _ => 256 : String → Int) (SecureCommandBuilder.buildDownloadCommand
          "./libs/yt-dlp" "https://youtu.be/dQw4w9WgXcQ" "downloads" 720 "mp4" false) = 0)) :=
  ⟨by decide,
   C10_download_spawns_once ⟨"./libs/yt-dlp", none⟩ (fun _ => 256)
     "https://youtu.be/dQw4w9WgXcQ" 720 "mp4" "downloads" false false (by decide)⟩

/-! ### The log calls of a download -/

namespace VideoDownloader

theorem logged_append (xs ys : List Effect) :
    Effect.logged (xs ++ ys) = Effect.logged xs ++ Effect.logged ys := by
  induction xs with
  | nil => rfl
  | cons x xs ih => cases x <;> simp [Effect.logged, ih]

end VideoDownloader

/-- C11: with a logger present, every call of `download`, whether the url is rejected,
the run fails or the run succeeds, calls `logDownload` exactly once, with the url, quality
and format of the call and with the success flag that `download` returns. -/
theorem C11_download_logs_exactly_once (downloaderPath : String) (logger : DownloadLogger)
    (system : String → Int) (url : String) (quality : Int) (format outputDir : String)
    (audioOnly verboseMode : Bool) :
    ∃ success : Bool,
      (VideoDownloader.download ⟨downloaderPath, some logger⟩ system url quality format
          outputDir audioOnly verboseMode).1 = .ok success
      ∧ Effect.logged
          (VideoDownloader.download ⟨downloaderPath, some logger⟩ system url quality format
            outputDir audioOnly verboseMode).2
        = [(logger, url, quality, format, success)] := by
  by_cases hres : system (SecureCommandBuilder.buildDownloadCommand
      downloaderPath url outputDir quality format audioOnly) = 0 <;>
    cases hurl : InputValidator.isValidURL url <;>
    cases verboseMode <;>
    simp [VideoDownloader.download, VideoDownloader.downloadTry, hurl, hres,
      VideoDownloader.logged_append, VideoDownloader.logIfPresent, Effect.logged]

/-! ### The layout of a built command -/

/-- C12: with audioOnly true the command does not depend on quality or format, and its
selector fragment is the fixed text
` -f "bestaudio/best" --extract-audio --audio-format mp3`. -/
theorem C12_audioOnly_ignores_quality_and_format (downloaderPath url outputDir : String)
    (q1 q2 : Int) (f1 f2 : String) :
    SecureCommandBuilder.buildDownloadCommand downloaderPath url outputDir q1 f1 true
      = SecureCommandBuilder.buildDownloadCommand downloaderPath url outputDir q2 f2 true
    ∧ SecureCommandBuilder.buildDownloadCommand downloaderPath url outputDir q1 f1 true
      = SecureCommandBuilder.escapeForShell downloaderPath ++ " -o "
        ++ SecureCommandBuilder.escapeForShell
            (outputDir ++ "/%(uploader)s - %(title)s.%(ext)s")
        ++ " -f \"bestaudio/best\" --extract-audio --audio-format mp3"
        ++ " --write-info-json --write-thumbnail --embed-subs --write-auto-sub"
        ++ " " ++ SecureCommandBuilder.escapeForShell
            (SecureCommandBuilder.sanitizeInput url) := by
  constructor
  · rfl
  · simp only [SecureCommandBuilder.buildDownloadCommand, if_true, String.append_assoc]

/-- C13: with audioOnly false the selector of the command is
` -f "best[height<=H][ext=F]/best[height<=H]/best"`, where `F` is the format and `H` is
`2160` for quality 0 and the decimal rendering of the quality otherwise; so quality 0 and
quality 2160 give the same command. -/
theorem C13_video_selector_fallback_chain (downloaderPath url outputDir : String)
    (quality : Int) (format : String) :
    SecureCommandBuilder.buildDownloadCommand downloaderPath url outputDir quality format false
      = SecureCommandBuilder.escapeForShell downloaderPath ++ " -o "
        ++ SecureCommandBuilder.escapeForShell
            (outputDir ++ "/%(uploader)s - %(title)s.%(ext)s")
        ++ (" -f \"best[height<="
            ++ (if quality = 0 then "2160" else SecureCommandBuilder.to_string quality)
            ++ "][ext=" ++ format ++ "]/best[height<="
            ++ (if quality = 0 then "2160" else SecureCommandBuilder.to_string quality)
            ++ "]/best\"")
        ++ " --write-info-json --write-thumbnail --embed-subs --write-auto-sub"
        ++ " " ++ SecureCommandBuilder.escapeForShell
            (SecureCommandBuilder.sanitizeInput url)
    ∧ SecureCommandBuilder.buildDownloadCommand downloaderPath url outputDir 0 format false
      = SecureCommandBuilder.buildDownloadCommand
          downloaderPath url outputDir 2160 format false := by
  constructor
  · by_cases hq : quality = 0
    · subst hq
      apply String.ext
      simp [SecureCommandBuilder.buildDownloadCommand, String.data_append]
    · apply String.ext
      simp [SecureCommandBuilder.buildDownloadCommand, String.data_append, hq]
  · apply String.ext
    have h2160 : SecureCommandBuilder.to_string 2160 = "2160" := by decide
    simp [SecureCommandBuilder.buildDownloadCommand, String.data_append, h2160]

/-- C14: every command begins with the double-quoted sanitized downloader path followed
by ` -o "`, and ends with the four capture flags followed by the double-quoted sanitized
url, whatever the quality, the format and the audio flag. -/
theorem C14_command_frame (downloaderPath url outputDir : String) (quality : Int)
    (format : String) (audioOnly : Bool) :
    ∃ middle : String,
      SecureCommandBuilder.buildDownloadCommand
          downloaderPath url outputDir quality format audioOnly
        = ("\"" ++ SecureCommandBuilder.sanitizeInput downloaderPath ++ "\" -o \"")
          ++ middle
          ++ (" --write-info-json --write-thumbnail --embed-subs --write-auto-sub \""
              ++ SecureCommandBuilder.sanitizeInput url ++ "\"") := by
  by_cases ha : audioOnly = true
  · refine ⟨SecureCommandBuilder.sanitizeInput
        (outputDir ++ "/%(uploader)s - %(title)s.%(ext)s") ++ "\""
      ++ " -f \"bestaudio/best\" --extract-audio --audio-format mp3", ?_⟩
    apply String.ext
    simp [SecureCommandBuilder.buildDownloadCommand, SecureCommandBuilder.escapeForShell,
      String.data_append, SecureCommandBuilder.sanitizeInput_idem, ha]
  · by_cases hq : quality = 0
    · refine ⟨SecureCommandBuilder.sanitizeInput
          (outputDir ++ "/%(uploader)s - %(title)s.%(ext)s") ++ "\""
        ++ (" -f \"best[height<=2160][ext=" ++ format ++ "]/best[height<=2160]/best\""), ?_⟩
      apply String.ext
      simp [SecureCommandBuilder.buildDownloadCommand, SecureCommandBuilder.escapeForShell,
        String.data_append, SecureCommandBuilder.sanitizeInput_idem, ha, hq]
    · refine ⟨SecureCommandBuilder.sanitizeInput
          (outputDir ++ "/%(uploader)s - %(title)s.%(ext)s") ++ "\""
        ++ (" -f \"best[height<=" ++ SecureCommandBuilder.to_string quality ++ "][ext="
          ++ format ++ "]/best[height<=" ++ SecureCommandBuilder.to_string quality
          ++ "]/best\""), ?_⟩
      apply String.ext
      simp [SecureCommandBuilder.buildDownloadCommand, SecureCommandBuilder.escapeForShell,
        String.data_append, SecureCommandBuilder.sanitizeInput_idem, ha, hq]

set_option maxRecDepth 100000 in
/-- C15, at a failing input: for the output directory `downloads` the output template of
the command is `"downloads/%uploaders - %titles.%exts"`; the parentheses of the three
placeholders are gone, because the naming pattern is sanitized along with the directory. -/
theorem C15_output_template_loses_parentheses :
    SecureCommandBuilder.buildDownloadCommand
        "./libs/yt-dlp" "https://youtu.be/dQw4w9WgXcQ" "downloads" 0 "mp4" false
      = "\"./libs/yt-dlp\" -o \"downloads/%uploaders - %titles.%exts\""
        ++ " -f \"best[height<=2160][ext=mp4]/best[height<=2160]/best\""
        ++ " --write-info-json --write-thumbnail --embed-subs --write-auto-sub"
        ++ " \"https://youtu.be/dQw4w9WgXcQ\""
    ∧ SecureCommandBuilder.escapeForShell ("downloads" ++ "/%(uploader)s - %(title)s.%(ext)s")
      ≠ "\"" ++ SecureCommandBuilder.sanitizeInput "downloads"
          ++ "/%(uploader)s - %(title)s.%(ext)s" ++ "\"" := by
  decide

/-! ### Trimming -/

namespace InputValidator

/-- A failed search: every character of the string is one of `chars`. -/
theorem find_first_not_of_eq_none (l cs : List Char) :
    find_first_not_of l cs = none ↔ ∀ c ∈ l, c ∈ cs := by
  induction l with
  | nil => simp [find_first_not_of]
  | cons x l ih =>
    unfold find_first_not_of
    by_cases hx : x ∈ cs
    · simp [hx, ih]
    · simp [hx]

/-- A successful search splits the string at the position found: only characters of
`chars` before it, a character outside `chars` at it. -/
theorem find_first_not_of_eq_some (l cs : List Char) (i : Nat)
    (h : find_first_not_of l cs = some i) :
    ∃ pre c rest, l = pre ++ c :: rest ∧ pre.length = i ∧ (∀ x ∈ pre, x ∈ cs) ∧ c ∉ cs := by
  induction l generalizing i with
  | nil => simp [find_first_not_of] at h
  | cons x l ih =>
    unfold find_first_not_of at h
    by_cases hx : x ∈ cs
    · simp only [List.elem_eq_mem, List.contains, hx, decide_True, if_true, Option.map_eq_some'] at h
      obtain ⟨j, hj, hji⟩ := h
      obtain ⟨pre, c, rest, hl, hlen, hpre, hc⟩ := ih j hj
      refine ⟨x :: pre, c, rest, by simp [hl], by simp [hlen, hji], ?_, hc⟩
      intro y hy
      rcases List.mem_cons.mp hy with h1 | h1
      · rw [h1]; exact hx
      · exact hpre y h1
    · simp [hx] at h
      exact ⟨[], x, l, rfl, by simp [h], by simp, hx⟩

theorem find_last_not_of_eq_none (l cs : List Char) :
    find_last_not_of l cs = none ↔ ∀ c ∈ l, c ∈ cs := by
  simp [find_last_not_of, find_first_not_of_eq_none]

/-- The search from the far end splits the string at the position found: a character
outside `chars` at it, only characters of `chars` after it. -/
theorem find_last_not_of_eq_some (l cs : List Char) (e : Nat)
    (h : find_last_not_of l cs = some e) :
    ∃ init c post, l = init ++ c :: post ∧ init.length = e ∧ (∀ x ∈ post, x ∈ cs) ∧ c ∉ cs := by
  unfold find_last_not_of at h
  rw [Option.map_eq_some'] at h
  obtain ⟨j, hj, hje⟩ := h
  obtain ⟨pre, c, rest, hl, hlen, hpre, hc⟩ := find_first_not_of_eq_some _ _ _ hj
  have hl2 : l = rest.reverse ++ c :: pre.reverse := by
    have := congrArg List.reverse hl
    simpa using this
  refine ⟨rest.reverse, c, pre.reverse, hl2, ?_, ?_, hc⟩
  · rw [← hje, hl2]
    simp
    omega
  · intro x hx
    exact hpre x (List.mem_reverse.mp hx)

/-- A piece cut out between a left and a right margin of characters of `cs`, which itself
neither begins nor ends with a character of `cs`, is what is left after dropping such
characters from both ends. -/
theorem trimmed_piece_canonical (cs pre t post : List Char)
    (hpre : ∀ x ∈ pre, x ∈ cs) (hpost : ∀ x ∈ post, x ∈ cs)
    (hhead : ∀ c, t.head? = some c → c ∉ cs) (hlast : ∀ c, t.getLast? = some c → c ∉ cs) :
    ((pre ++ t ++ post).dropWhile (fun c => cs.contains c)).rdropWhile (fun c => cs.contains c)
      = t := by
  have hpre' : ∀ x ∈ pre, (fun c => cs.contains c) x = true := by
    intro x hx; simpa using hpre x hx
  rw [List.append_assoc, List.dropWhile_append_of_pos hpre']
  rcases List.eq_nil_or_concat t with ht | ⟨init, d, ht⟩
  · subst ht
    have hall : ∀ x ∈ post, (fun c => cs.contains c) x = true := by
      intro x hx; simpa using hpost x hx
    rw [List.nil_append, List.dropWhile_eq_nil_iff.mpr hall]
    simp [List.rdropWhile]
  · rw [List.concat_eq_append] at ht
    subst ht
    have hd : d ∉ cs := hlast d (by simp)
    have hfirst : ((init ++ [d]) ++ post).dropWhile (fun c => cs.contains c)
        = (init ++ [d]) ++ post := by
      cases init with
      | nil => simp [hd]
      | cons c init =>
        have hc : c ∉ cs := hhead c (by simp)
        simp [hc]
    rw [hfirst]
    have hrev : ∀ x ∈ post.reverse, (fun c => cs.contains c) x = true := by
      intro x hx; simpa using hpost x (List.mem_reverse.mp hx)
    unfold List.rdropWhile
    rw [List.reverse_append, List.dropWhile_append_of_pos hrev]
    simp [hd]

/-- Two ways of cutting the same string into a margin, a piece and a margin, as above,
give the same piece. -/
theorem trimmed_piece_unique (cs pre t post pre' t' post' : List Char)
    (heq : pre ++ t ++ post = pre' ++ t' ++ post')
    (hpre : ∀ x ∈ pre, x ∈ cs) (hpost : ∀ x ∈ post, x ∈ cs)
    (hhead : ∀ c, t.head? = some c → c ∉ cs) (hlast : ∀ c, t.getLast? = some c → c ∉ cs)
    (hpre' : ∀ x ∈ pre', x ∈ cs) (hpost' : ∀ x ∈ post', x ∈ cs)
    (hhead' : ∀ c, t'.head? = some c → c ∉ cs)
    (hlast' : ∀ c, t'.getLast? = some c → c ∉ cs) : t = t' := by
  rw [← trimmed_piece_canonical cs pre t post hpre hpost hhead hlast,
    ← trimmed_piece_canonical cs pre' t' post' hpre' hpost' hhead' hlast', heq]

/-- What `trimString` returns: the input is a left margin of white space, the result, and
a right margin of white space, and the result neither begins nor ends with white space. -/
theorem trimString_cut (s : String) :
    ∃ pre post : List Char, s.data = pre ++ (trimString s).data ++ post
      ∧ (∀ x ∈ pre, x ∈ " \t\n\r".data) ∧ (∀ x ∈ post, x ∈ " \t\n\r".data)
      ∧ (∀ c, (trimString s).data.head? = some c → c ∉ " \t\n\r".data)
      ∧ (∀ c, (trimString s).data.getLast? = some c → c ∉ " \t\n\r".data) := by
  unfold trimString
  cases hfirst : find_first_not_of s.data " \t\n\r".data with
  | none =>
    rw [find_first_not_of_eq_none] at hfirst
    exact ⟨s.data, [], by simp, hfirst, by simp, by simp, by simp⟩
  | some start =>
    obtain ⟨pre, c, rest, hl, hlen, hpre, hc⟩ := find_first_not_of_eq_some _ _ _ hfirst
    cases hlast : find_last_not_of s.data " \t\n\r".data with
    | none =>
      rw [find_last_not_of_eq_none] at hlast
      exact absurd (hlast c (by rw [hl]; simp)) hc
    | some e =>
      obtain ⟨init, d, post, hl', hlen', hpost, hd⟩ := find_last_not_of_eq_some _ _ _ hlast
      have hsplit := hl ▸ hl'
      have hkey : ∃ a, init = pre ++ a ∧ c :: rest = a ++ d :: post := by
        rcases List.append_eq_append_iff.mp hsplit with ⟨a, hinit, hrest⟩ | ⟨b, hpreb, hpostb⟩
        · exact ⟨a, hinit, hrest⟩
        · -- the last position cannot lie before the first one
          cases b with
          | nil => exact ⟨[], by simpa using hpreb.symm, by simpa using hpostb.symm⟩
          | cons x b =>
            simp only [List.cons_append, List.cons.injEq] at hpostb
            have hmem : d ∈ pre := by rw [hpreb, ← hpostb.1]; simp
            exact absurd (hpre d hmem) hd
      obtain ⟨a, hinit, hrest⟩ := hkey
      have hpiece : substr s.data start (e - start + 1) = a ++ [d] := by
        unfold substr
        rw [hl, ← hlen, ← hlen', hinit, List.drop_left, hrest]
        have hcount : (pre ++ a).length - pre.length + 1 = (a ++ [d]).length := by simp
        rw [hcount]
        have h2 : a ++ d :: post = (a ++ [d]) ++ post := by simp
        rw [h2, List.take_left]
      refine ⟨pre, post, ?_, hpre, hpost, ?_, ?_⟩
      · show s.data = pre ++ substr s.data start (e - start + 1) ++ post
        rw [hpiece, hl, hrest]; simp
      · show ∀ c', (substr s.data start (e - start + 1)).head? = some c' → _
        rw [hpiece]
        intro c' hc'
        cases a with
        | nil =>
          simp only [List.nil_append, List.head?_cons, Option.some.injEq] at hc'
          rw [← hc']; exact hd
        | cons x a =>
          simp only [List.cons_append, List.head?_cons, Option.some.injEq,
            List.cons.injEq] at hc' hrest
          rw [← hc', ← hrest.1]; exact hc
      · show ∀ c', (substr s.data start (e - start + 1)).getLast? = some c' → _
        rw [hpiece]
        intro c' hc'
        simp only [List.getLast?_concat, Option.some.injEq] at hc'
        rw [← hc']; exact hd

end InputValidator

/-- C16: for every string `s`, `trimString s` is the one string `t` with
`s = pre ++ t ++ post`, where `pre` and `post` hold only space, tab, line feed and
carriage return and `t` neither begins nor ends with one of these; so an empty or
all-white-space input gives the empty string, white space inside is kept, and
`trimString` is idempotent. -/
theorem C16_trimString_unique_cut (s : String) :
    (∃ pre post : String, s = pre ++ InputValidator.trimString s ++ post
      ∧ (∀ c ∈ pre.data, c ∈ [' ', '\t', '\n', '\r'])
      ∧ (∀ c ∈ post.data, c ∈ [' ', '\t', '\n', '\r']))
    ∧ (∀ c, (InputValidator.trimString s).data.head? = some c → c ∉ [' ', '\t', '\n', '\r'])
    ∧ (∀ c, (InputValidator.trimString s).data.getLast? = some c
        → c ∉ [' ', '\t', '\n', '\r'])
    ∧ (∀ pre t post : String, s = pre ++ t ++ post
        → (∀ c ∈ pre.data, c ∈ [' ', '\t', '\n', '\r'])
        → (∀ c ∈ post.data, c ∈ [' ', '\t', '\n', '\r'])
        → (∀ c, t.data.head? = some c → c ∉ [' ', '\t', '\n', '\r'])
        → (∀ c, t.data.getLast? = some c → c ∉ [' ', '\t', '\n', '\r'])
        → t = InputValidator.trimString s)
    ∧ ((∀ c ∈ s.data, c ∈ [' ', '\t', '\n', '\r']) → InputValidator.trimString s = "")
    ∧ InputValidator.trimString (InputValidator.trimString s) = InputValidator.trimString s
    ∧ InputValidator.trimString "  a \t b \r\n" = "a \t b" := by
  have hws : " \t\n\r".data = [' ', '\t', '\n', '\r'] := rfl
  have huniq : ∀ (r pre t post : String), r = pre ++ t ++ post
      → (∀ c ∈ pre.data, c ∈ [' ', '\t', '\n', '\r'])
      → (∀ c ∈ post.data, c ∈ [' ', '\t', '\n', '\r'])
      → (∀ c, t.data.head? = some c → c ∉ [' ', '\t', '\n', '\r'])
      → (∀ c, t.data.getLast? = some c → c ∉ [' ', '\t', '\n', '\r'])
      → t = InputValidator.trimString r := by
    intro r pre t post hr hpre hpost hhead hlast
    obtain ⟨pre', post', hcut, hpre', hpost', hhead', hlast'⟩ :=
      InputValidator.trimString_cut r
    rw [hws] at hpre' hpost' hhead' hlast'
    apply String.ext
    refine InputValidator.trimmed_piece_unique [' ', '\t', '\n', '\r'] pre.data t.data
      post.data pre' (InputValidator.trimString r).data post' ?_ hpre hpost hhead hlast
      hpre' hpost' hhead' hlast'
    rw [← hcut, hr, String.data_append, String.data_append]
  obtain ⟨pre, post, hcut, hpre, hpost, hhead, hlast⟩ := InputValidator.trimString_cut s
  rw [hws] at hpre hpost hhead hlast
  refine ⟨⟨⟨pre⟩, ⟨post⟩, ?_, hpre, hpost⟩, hhead, hlast, huniq s, ?_, ?_, by decide⟩
  · apply String.ext
    rw [String.data_append, String.data_append]
    exact hcut
  · intro hall
    exact (huniq s s "" "" (by simp) hall (by simp) (by simp) (by simp)).symm
  · exact (huniq (InputValidator.trimString s) "" (InputValidator.trimString s) ""
      (by simp) (by simp) (by simp) hhead hlast).symm

/-! ### The history display -/

namespace DownloadLogger

/-- The loop of `showHistory` prints the lines from the front of the file, as many as the
distance from `count` to `maxEntries` allows, and counts them. -/
theorem showHistoryLoop_eq (maxEntries : Int) (lines : List String) (count : Int) :
    showHistoryLoop maxEntries lines count
      = (lines.take (maxEntries - count).toNat,
         count + ((lines.take (maxEntries - count).toNat).length : Int)) := by
  induction lines generalizing count with
  | nil => simp [showHistoryLoop]
  | cons line rest ih =>
    unfold showHistoryLoop
    by_cases h : count < maxEntries
    · have hstep : (maxEntries - count).toNat = (maxEntries - (count + 1)).toNat + 1 := by
        omega
      rw [if_pos h, ih, hstep]
      simp only [List.take_succ_cons, List.length_cons, Nat.cast_add, Nat.cast_one,
        Prod.mk.injEq, true_and]
      omega
    · have hzero : (maxEntries - count).toNat = 0 := by omega
      rw [if_neg h, hzero]
      simp

end DownloadLogger

/-- C17, refuted as stated: for a log of 50 lines and maxEntries 20, `showHistory` prints,
after its two header lines, the entries 1 to 20, which are not the entries 31 to 50. -/
theorem C17_showHistory_last_entries_counterexample :
    (DownloadLogger.showHistory
        (some ((List.range 50).map (fun i => "entry " ++ toString (i + 1)))) 20).drop 2
      = (List.range 20).map (fun i => "entry " ++ toString (i + 1))
    ∧ (DownloadLogger.showHistory
        (some ((List.range 50).map (fun i => "entry " ++ toString (i + 1)))) 20).drop 2
      ≠ ((List.range 50).map (fun i => "entry " ++ toString (i + 1))).drop 30 := by
  decide

/-- C17, amended: for every log and every maxEntries `N`, `showHistory` prints, after its
two header lines, the first min(N, n) lines of the log in their original order, that is
the oldest entries, followed by `No download history.` when it printed no entry. -/
theorem C17_showHistory_first_entries (lines : List String) (N : Int) :
    DownloadLogger.showHistory (some lines) N
      = ["📜 Download History", "──────────────────────────────────────────"]
        ++ lines.take N.toNat
        ++ (if lines.take N.toNat = [] then ["No download history."] else [])
    ∧ (lines.take N.toNat).length = min N.toNat lines.length := by
  refine ⟨?_, List.length_take _ _⟩
  simp only [DownloadLogger.showHistory, DownloadLogger.showHistoryLoop_eq, sub_zero,
    zero_add]
  by_cases h : lines.take N.toNat = []
  · simp [h]
  · have hlen : ((lines.take N.toNat).length : Int) ≠ 0 := by
      intro h0
      exact h (List.length_eq_zero.mp (by exact_mod_cast h0))
    rw [if_neg hlen, if_neg h]
    simp

/-! ### Accepted urls need no sanitizing -/

namespace InputValidator

set_option maxRecDepth 100000 in
/-- No head of an accepted url holds a dangerous character. -/
theorem heads_not_dangerous :
    ∀ sch ∈ ["", "http://", "https://"], ∀ w ∈ ["", "www."],
    ∀ lit ∈ ["youtube.com/watch?v=", "youtu.be/", "youtube.com/playlist?list=",
      "youtube.com/channel/", "youtube.com/@"],
    ∀ c ∈ (sch ++ w ++ lit).data, c ∉ SecureCommandBuilder.dangerousChars := by
  decide

/-- No dangerous character belongs to `[a-zA-Z0-9_.-]`. -/
theorem dangerous_not_in_handleClass :
    ∀ d ∈ SecureCommandBuilder.dangerousChars,
      Regex.inBracket [('a', 'z'), ('A', 'Z'), ('0', '9')] ['_', '.', '-'] d = false := by
  decide

/-- An accepted url holds no dangerous character. -/
theorem isValidURL_not_dangerous (u : String) (h : isValidURL u = true) :
    ∀ c ∈ u.data, c ∉ SecureCommandBuilder.dangerousChars := by
  obtain ⟨sch, hs, w, hw, lit, hl, p, hdata, -, hall⟩ := isValidURL_shape u h
  intro c hc
  rw [hdata, List.mem_append] at hc
  rcases hc with hc | hc
  · exact heads_not_dangerous sch hs w hw lit hl c hc
  · intro hd
    have h1 := hall c hc
    rw [dangerous_not_in_handleClass c hd] at h1
    exact Bool.false_ne_true h1

/-- Sanitizing an accepted url changes nothing. -/
theorem sanitizeInput_of_valid (u : String) (h : isValidURL u = true) :
    SecureCommandBuilder.sanitizeInput u = u := by
  apply String.ext
  rw [SecureCommandBuilder.sanitizeInput_data, List.filter_eq_self]
  intro c hc
  simpa using isValidURL_not_dangerous u h c hc

end InputValidator

namespace VideoDownloader

/-- For an accepted url, `download` hands `system` the command of `buildDownloadCommand`
and nothing else. -/
theorem spawned_download_of_valid (self : VideoDownloader) (system : String → Int)
    (url : String) (quality : Int) (format outputDir : String) (audioOnly verboseMode : Bool)
    (hurl : InputValidator.isValidURL url = true) :
    Effect.spawned (self.download system url quality format outputDir audioOnly verboseMode).2
      = [SecureCommandBuilder.buildDownloadCommand
          self.downloaderPath url outputDir quality format audioOnly] := by
  by_cases hres : system (SecureCommandBuilder.buildDownloadCommand
      self.downloaderPath url outputDir quality format audioOnly) = 0 <;>
    cases verboseMode <;>
    simp [download, downloadTry, hurl, hres, spawned_append, spawned_logIfPresent,
      Effect.spawned]

end VideoDownloader

/-- C18: every url that `isValidURL` accepts holds none of the 13 forbidden characters,
so `sanitizeInput` leaves it as it is, and the one command that `download` hands to
`system` ends with a blank and the url between double quotes. -/
theorem C18_valid_url_is_its_own_token (u : String)
    (hurl : InputValidator.isValidURL u = true) :
    (∀ c ∈ ['|', '&', ';', '(', ')', '$', '`', '"', '\'', '<', '>', '\n', '\r'],
        c ∉ u.data)
    ∧ SecureCommandBuilder.sanitizeInput u = u
    ∧ SecureCommandBuilder.escapeForShell (SecureCommandBuilder.sanitizeInput u)
        = "\"" ++ u ++ "\""
    ∧ ∀ (self : VideoDownloader) (system : String → Int) (quality : Int)
        (format outputDir : String) (audioOnly verboseMode : Bool),
        ∃ front : String,
          Effect.spawned
              (self.download system u quality format outputDir audioOnly verboseMode).2
            = [front ++ " " ++ ("\"" ++ u ++ "\"")] := by
  have hsan := InputValidator.sanitizeInput_of_valid u hurl
  refine ⟨?_, hsan, ?_, ?_⟩
  · intro c hc hmem
    exact InputValidator.isValidURL_not_dangerous u hurl c hmem hc
  · simp only [SecureCommandBuilder.escapeForShell, hsan]
  · intro self system quality format outputDir audioOnly verboseMode
    rw [VideoDownloader.spawned_download_of_valid self system u quality format outputDir
      audioOnly verboseMode hurl]
    unfold SecureCommandBuilder.buildDownloadCommand
    simp only [SecureCommandBuilder.escapeForShell, hsan, ← String.append_assoc]
    exact ⟨_, rfl⟩

/-- C18 at the url `https://www.youtube.com/watch?v=dQw4w9WgXcQ`. -/
theorem C18_valid_url_is_its_own_token_witness :
    InputValidator.isValidURL "https://www.youtube.com/watch?v=dQw4w9WgXcQ" = true
    ∧ SecureCommandBuilder.sanitizeInput "https://www.youtube.com/watch?v=dQw4w9WgXcQ"
        = "https://www.youtube.com/watch?v=dQw4w9WgXcQ" :=
  ⟨by decide,
   (C18_valid_url_is_its_own_token "https://www.youtube.com/watch?v=dQw4w9WgXcQ"
      (by decide)).2.1⟩
